import Mathlib

/-!
Shallow embedding of the course-table-to-iCS converter
(src/Sdpei-CourseTableToiCS.py) and proofs about it.

Conventions of the embedding:
* Python `datetime` values (always at midnight in this program) are modelled
  as Julian day numbers of type `Int`; `datetime + timedelta(days = k)` is
  `d + k`.  `gdate y m d` is the day number of the Gregorian date y-m-d.
* Python strings are Lean `String`s; where the code parses characterwise
  (`parse_weeks_string`) we work on `List Char`.
* Python `%` on `int` agrees with Lean `Int.emod` (the `%` notation on `Int`),
  including on negative operands.
* The holiday oracle `chinese_calendar.is_holiday` is an abstract parameter
  `hol : Int → Bool`.
* `uuid.uuid4()` results and the run timestamp `utc_now` are opaque `String`
  parameters: their values never influence the properties proved here.
* Fallible dictionary lookups (`KeyError`) are modelled with `Option` /
  `Except Unit`.
-/

/-- Model of `course['position'].replace("\n", "-")` (line 51).  For a
single-character pattern and single-character replacement, Python
`str.replace` is exactly a character map. -/
def replace_nl_dash (s : String) : String :=
  String.mk (s.data.map (fun c => if c = '\n' then '-' else c))

/-- Model of `format_building_name` (lines 28-36). -/
def format_building_name (building_name : String) : String :=
  if building_name.startsWith "济-" then
    "山东体育学院" ++ (building_name.drop 2)
  else
    building_name

/-- A `course_info` dictionary as built by `parse_course_info`
(lines 162-169). -/
structure CourseInfo where
  name : String
  teacher : String
  weeks : List Int
  position : String
  sections : List Int
  day : Int
deriving DecidableEq, Repr

/-- The merge key used at lines 174-176: `day`, `weeks` and `sections`
compared for (list) equality. -/
def keyOf (c : CourseInfo) : Int × List Int × List Int :=
  (c.day, c.weeks, c.sections)

/-- One step of the duplicate-merging scan of `parse_course_info`
(lines 171-184): find the first already-collected course with the same
`day`, `weeks` and `sections` (the conjunction of the three equalities of
lines 174-176, packaged as `keyOf d = keyOf c` — see `keyOf_eq_iff`); if
found, append `"  " + position` to it, otherwise append the new course at
the end. -/
def mergeInto : List CourseInfo → CourseInfo → List CourseInfo
  | [], c => [c]
  | d :: ds, c =>
    if keyOf d = keyOf c then
      { d with position := d.position ++ "  " ++ c.position } :: ds
    else
      d :: mergeInto ds c

/-- The accumulation of `parse_course_info` (lines 152-186) over the raw
sessions in encounter order.  HTML extraction itself is out of scope; the
input is the list of per-cell `course_info` records in document order. -/
def parse_course_info (raw : List CourseInfo) : List CourseInfo :=
  raw.foldl mergeInto []

/-- Join a list of position fragments with the double-space separator used
by the merge at line 182. -/
def joinSep : List String → String
  | [] => ""
  | [p] => p
  | p :: ps => p ++ "  " ++ joinSep ps

/-- Modelled from the spec (SessionMerger contract): group the raw sessions
by equality of (weekday, sectionRange, weeks) in first-seen order, joining
the positions of each group with the double-space separator.  This is the
specification-side description that `parse_course_info` is compared with. -/
def spec_session_merge : List CourseInfo → List CourseInfo
  | [] => []
  | c :: cs =>
    { c with position :=
        joinSep (c.position :: (cs.filter (fun r => decide (keyOf r = keyOf c))).map (fun r => r.position)) }
      :: spec_session_merge (cs.filter (fun r => decide (¬ keyOf r = keyOf c)))
termination_by l => l.length
decreasing_by
  simp only [List.length_cons]
  exact Nat.lt_succ_of_le (List.length_filter_le _ _)

/-- A record of the structured JSON export written by `save_courses_to_json`
(lines 53-63) and read back by `generate_ics_from_json` (line 235). -/
structure JsonCourse where
  name : String
  teacher : String
  time : String
  sections : String
  weeks : String
  weeks_array : List Int
  position : String
  day : Int
  section_array : List Int
deriving DecidableEq, Repr

/-- The display weekday names of lines 42. -/
def weekday_names : List String :=
  ["周一", "周二", "周三", "周四", "周五", "周六", "周日"]

/-- The per-course formatting of `save_courses_to_json` (lines 44-64).
`json.dump` / `json.load` round-trip these records unchanged, so the same
record is what `generate_ics_from_json` later reads. -/
def exportRecord (c : CourseInfo) : JsonCourse :=
  { name := c.name
    teacher := c.teacher
    time := if 1 ≤ c.day ∧ c.day ≤ 7 then weekday_names.getD (c.day - 1).toNat "" else "星期" ++ toString c.day
    sections := "第" ++ toString (c.sections.getD 0 0) ++ "-" ++ toString (c.sections.getD 1 0) ++ "节"
    weeks := "第" ++ String.intercalate "," (c.weeks.map toString) ++ "周"
    weeks_array := c.weeks
    position := replace_nl_dash c.position
    day := c.day
    section_array := c.sections }

/-- Model of `weeks_str.replace('周', '')` at line 127: remove every
occurrence of the character `'周'`. -/
def stripZhou (s : List Char) : List Char :=
  s.filter (fun c => decide (¬ c = '周'))

/-- Model of Python `str.split(sep)` for a single-character separator. -/
def pySplit (sep : Char) : List Char → List (List Char)
  | [] => [[]]
  | c :: cs =>
    if c = sep then
      [] :: pySplit sep cs
    else
      match pySplit sep cs with
      | h :: t => (c :: h) :: t
      | [] => [[c]]

/-- Decimal value of a digit string. -/
def digitsVal (cs : List Char) : Nat :=
  cs.foldl (fun a c => a * 10 + (c.toNat - 48)) 0

/-- `int()` on an unsigned digit string: succeeds iff the string is a
non-empty run of ASCII digits. -/
def pyIntCore (cs : List Char) : Option Int :=
  if cs ≠ [] ∧ cs.all Char.isDigit then some (digitsVal cs) else none

/-- Model of Python `int(s)` as used on week labels: an optional single
leading sign followed by a non-empty digit run; anything else raises
`ValueError` (modelled as `none`).  (Python also tolerates surrounding
whitespace and underscores between digits; week labels never contain
those.) -/
def pyInt (cs : List Char) : Option Int :=
  match cs with
  | [] => none
  | c :: rest =>
    if c = '-' then (pyIntCore rest).map (fun n => -n)
    else if c = '+' then pyIntCore rest
    else pyIntCore cs

/-- Model of Python `range(a, b)` over `Int`: the ascending list of integers
from `a` (inclusive) to `b` (exclusive), empty when `b ≤ a`. -/
def intRange (a b : Int) : List Int :=
  (List.range (b - a).toNat).map (fun n : Nat => a + (n : Int))

/-- The single-week / malformed fallback of `parse_weeks_string`
(lines 131-136): try `int(weeks_str)`, else the empty list. -/
def weeksFallback (t : List Char) : List Int :=
  match pyInt t with
  | some n => [n]
  | none => []

/-- The two-part branch of `parse_weeks_string` (lines 128-130): both
halves of the split must parse as ints, yielding `range(start, end + 1)`;
any `ValueError` falls back on the single-week/empty handling of the
stripped string `t`. -/
def parseTwo (u v t : List Char) : List Int :=
  match pyInt u, pyInt v with
  | some a, some b => intRange a (b + 1)
  | _, _ => weeksFallback t

/-- Model of `parse_weeks_string` (lines 125-136): strip `'周'`, try
`start, end = map(int, s.split('-'))` giving `range(start, end + 1)`;
on `ValueError` fall back to a single parsed week, else the empty list.
(Unpacking `start, end` from the split raises `ValueError` unless the
split has exactly two parts.) -/
def parse_weeks_string (s : List Char) : List Int :=
  let t := stripZhou s
  match pySplit '-' t with
  | [u, v] => parseTwo u v t
  | _ => weeksFallback t

/-- Model of `sections_to_array` (lines 139-142). -/
def sections_to_array (section_ : Int) : List Int :=
  [section_, section_ + 1]

/-- The in-place `weeks.sort()` of line 310.  Python list sort produces the
unique ascending reordering of an `int` list; `insertionSort` on `Int` is
extensionally identical. -/
def sortW (ws : List Int) : List Int :=
  List.insertionSort (fun a b => a ≤ b) ws

/-- `start_week = weeks[0]` after sorting (line 311). -/
def startWeek (ws : List Int) : Int :=
  (sortW ws).headD 0

/-- `end_week = weeks[-1]` after sorting (line 312). -/
def endWeek (ws : List Int) : Int :=
  (sortW ws).getLastD 0

/-- The recurrence classification of lines 314-323:
`1` = 单周 (ODD_WEEKS), `2` = 双周 (EVEN_WEEKS), `0` = 每周 (EVERY_WEEK). -/
def weekStatus (ws : List Int) : Nat :=
  if ws.all (fun w => decide (w % 2 = 1)) then 1
  else if ws.all (fun w => decide (w % 2 = 0)) then 2
  else 0

/-- The day offset of lines 326-333: base `7*(start_week-1) + day - 1`,
plus `7` when an odd-week course starts on an even week or an even-week
course starts on an odd week. -/
def delta_time (startW day : Int) (status : Nat) : Int :=
  let base := 7 * (startW - 1) + day - 1
  if status = 1 then (if startW % 2 = 0 then base + 7 else base)
  else if status = 2 then (if ¬ startW % 2 = 0 then base + 7 else base)
  else base

/-- `first_time_obj = initial_time + timedelta(days=delta_time)` (line 335),
computed from the sorted week list exactly as lines 309-335 do. -/
def first_time_obj (anchor day : Int) (ws : List Int) : Int :=
  let sorted := sortW ws
  anchor + delta_time (sorted.headD 0) day (weekStatus sorted)

/-- The fixed period timetable `class_timetable` of lines 253-264, keyed by
the period number (Python keys are the decimal strings of 1..10, accessed
with `str(section)`). -/
def class_timetable (p : Int) : Option (String × String) :=
  if p = 1 then some ("080000", "084000")
  else if p = 2 then some ("085000", "093000")
  else if p = 3 then some ("100000", "104000")
  else if p = 4 then some ("105000", "113000")
  else if p = 5 then some ("133000", "141000")
  else if p = 6 then some ("142000", "150000")
  else if p = 7 then some ("153000", "161000")
  else if p = 8 then some ("162000", "170000")
  else if p = 9 then some ("180000", "184000")
  else if p = 10 then some ("185000", "193000")
  else none

/-- The holiday-exclusion loop body of lines 339-354 over an explicit list
of candidate week numbers.  Each collected entry is the pair
(occurrence day number, period-start clock string); the code renders such a
pair as `strftime("%Y%m%dT") + startTime` on the spot.  A missing period in
`class_timetable` raises `KeyError`, modelled as `Except.error ()`. -/
def collect_exdates (hol : Int → Bool) (sec0 : Int) (status : Nat)
    (first startW : Int) : List Int → Except Unit (List (Int × String))
  | [] => Except.ok []
  | w :: rest =>
    if status = 1 ∧ w % 2 = 0 then collect_exdates hol sec0 status first startW rest
    else if status = 2 ∧ w % 2 = 1 then collect_exdates hol sec0 status first startW rest
    else
      let d := first + 7 * (w - startW)
      if hol d then
        match class_timetable sec0 with
        | some t => (collect_exdates hol sec0 status first startW rest).map (fun l => (d, t.1) :: l)
        | none => Except.error ()
      else collect_exdates hol sec0 status first startW rest

/-- The full exclusion computation of lines 337-354:
`for week_num in range(start_week, end_week + 1): ...`. -/
def exclude_dates (hol : Int → Bool) (sec0 : Int) (status : Nat)
    (first startW endW : Int) : Except Unit (List (Int × String)) :=
  collect_exdates hol sec0 status first startW (intRange startW (endW + 1))

/-- Julian day number of the Gregorian date y-m-d (the day-number scale on
which `datetime` values are embedded). -/
def gdate (y m d : Nat) : Int :=
  let a := (14 - m) / 12
  let y2 := y + 4800 - a
  let m2 := m + 12 * a - 3
  ((d + (153 * m2 + 2) / 5 + 365 * y2 + y2 / 4 - y2 / 100 + y2 / 400 : Nat) : Int) - 32045

/-- Two-digit zero padding for month and day fields. -/
def pad2 (n : Nat) : String :=
  if n < 10 then "0" ++ toString n else toString n

/-- `strftime("%Y%m%d")` on a day number: invert the Julian day number to a
Gregorian date and render it as YYYYMMDD. -/
def fmtDate (jdn : Int) : String :=
  let n := jdn.toNat
  let a := n + 32044
  let b := (4 * a + 3) / 146097
  let c := a - 146097 * b / 4
  let d := (4 * c + 3) / 1461
  let e := c - 1461 * d / 4
  let m := (5 * e + 2) / 153
  let dd := e - (153 * m + 2) / 5 + 1
  let mm := m + 3 - 12 * (m / 10)
  let yy := 100 * b + d - 4800 + m / 10
  toString yy ++ pad2 mm ++ pad2 dd

/-- The ISO weekday abbreviations of line 274. -/
def weekday_codes : List String :=
  ["MO", "TU", "WE", "TH", "FR", "SA", "SU"]

/-- The calendar header written at lines 277-298, as a list of lines. -/
def ical_header_lines : List String :=
  ["BEGIN:VCALENDAR", "VERSION:2.0", "X-WR-CALNAME:课表",
   "X-APPLE-CALENDAR-COLOR:#FF2968", "X-WR-TIMEZONE:Asia/Shanghai",
   "BEGIN:VTIMEZONE", "TZID:Asia/Shanghai", "X-LIC-LOCATION:Asia/Shanghai",
   "BEGIN:STANDARD", "TZOFFSETFROM:+0800", "TZOFFSETTO:+0800", "TZNAME:CST",
   "DTSTART:19700101T000000", "END:STANDARD", "END:VTIMEZONE"]

/-- One event block of lines 301-408, as the list of lines written for one
course.  `utcNow` is the shared run timestamp, `uid1 uid2 uid3` the three
`uuid4()` draws (event UID, alarm X-WR-ALARMUID, alarm UID), `aTrigger` the
alarm trigger string (`""` when reminders are disabled), `hol` the holiday
oracle and `initial_time` the anchor (week-1 Monday) day number.  Any
period number missing from `class_timetable` raises `KeyError`
(`Except.error ()`), exactly where the Python lookup would. -/
def ical_event_lines (utcNow uid1 uid2 uid3 aTrigger : String)
    (hol : Int → Bool) (initial_time : Int) (jc : JsonCourse) :
    Except Unit (List String) :=
  let day := jc.day
  let sections := jc.section_array
  let weeks := jc.weeks_array
  let startW := startWeek weeks
  let endW := endWeek weeks
  let status := weekStatus (sortW weeks)
  let first := first_time_obj initial_time day weeks
  match exclude_dates hol (sections.getD 0 0) status first startW endW with
  | Except.error e => Except.error e
  | Except.ok exdates =>
    match class_timetable (sections.getD 0 0), class_timetable (sections.getD 1 0) with
    | some t0, some t1 =>
      let exdate_lines := if exdates = [] then [] else
        ["EXDATE;TZID=Asia/Shanghai:" ++
          String.intercalate "," (exdates.map (fun p => fmtDate p.1 ++ "T" ++ p.2))]
      let extra_status := if status = 0 then "1"
        else "2;BYDAY=" ++ weekday_codes.getD (day - 1).toNat ""
      let final_stime := fmtDate first ++ "T" ++ t0.1
      let final_etime := fmtDate first ++ "T" ++ t1.2
      let stop_time := first + (7 * (endW - startW) + 1)
      let stop_str := fmtDate stop_time ++ "T000000Z"
      let alarm_lines := if aTrigger = "" then [] else
        ["BEGIN:VALARM", "ACTION:DISPLAY", "DESCRIPTION:This is an event reminder",
         "TRIGGER:" ++ aTrigger, "X-WR-ALARMUID:" ++ uid2, "UID:" ++ uid3,
         "END:VALARM"]
      Except.ok
        (["BEGIN:VEVENT", "CREATED:" ++ utcNow, "DTSTAMP:" ++ utcNow,
          "SUMMARY:" ++ jc.name, "DESCRIPTION:教师：" ++ jc.teacher,
          "LOCATION:" ++ jc.position, "TZID:Asia/Shanghai", "SEQUENCE:0",
          "UID:" ++ uid1]
         ++ exdate_lines
         ++ ["RRULE:FREQ=WEEKLY;UNTIL=" ++ stop_str ++ ";INTERVAL=" ++ extra_status,
             "DTSTART;TZID=Asia/Shanghai:" ++ final_stime,
             "DTEND;TZID=Asia/Shanghai:" ++ final_etime,
             "X-APPLE-TRAVEL-ADVISORY-BEHAVIOR:AUTOMATIC"]
         ++ alarm_lines ++ ["END:VEVENT"])
    | _, _ => Except.error ()

/-- The per-course loop of lines 301-411: skip courses with an empty week
list (lines 306-307), append each rendered event block, and append the
footer `"\nEND:VCALENDAR"` (line 411) only after every course succeeded.
On a `KeyError` the `with` block aborts: nothing further is written and the
already-written prefix of the file remains on disk (the surrounding
`except` at lines 413-415 merely logs and returns `None`).  The `Bool`
records whether the run completed. -/
def emit_events (utcNow uid1 uid2 uid3 aTrigger : String) (hol : Int → Bool)
    (initial_time : Int) : List JsonCourse → List String × Bool
  | [] => (["", "END:VCALENDAR"], true)
  | c :: cs =>
    if c.weeks_array = [] then
      emit_events utcNow uid1 uid2 uid3 aTrigger hol initial_time cs
    else
      match ical_event_lines utcNow uid1 uid2 uid3 aTrigger hol initial_time c with
      | Except.ok ls =>
        let rest := emit_events utcNow uid1 uid2 uid3 aTrigger hol initial_time cs
        (ls ++ rest.1, rest.2)
      | Except.error _ => ([], false)

/-- The whole file-writing phase of `generate_ics_from_json`
(lines 296-411): header first, then the event blocks, then the footer on
full success.  The first component is the final on-disk content (as lines);
the second is `true` iff the run completed without a period lookup
failure. -/
def generate_ics_lines (utcNow uid1 uid2 uid3 aTrigger : String)
    (hol : Int → Bool) (initial_time : Int) (courses : List JsonCourse) :
    List String × Bool :=
  let r := emit_events utcNow uid1 uid2 uid3 aTrigger hol initial_time courses
  (ical_header_lines ++ r.1, r.2)

/-- Extract the lines of a successful event rendering (empty on failure);
used to state concrete witnesses. -/
def okLines (r : Except Unit (List String)) : List String :=
  match r with
  | Except.ok l => l
  | Except.error _ => []

/-- A week label is parseable when one of the two `int()` attempts of
`parse_weeks_string` can succeed on it. -/
def isParseableLabel (s : List Char) : Prop :=
  (∃ n, pyInt (stripZhou s) = some n) ∨
  (∃ u v a b, pySplit '-' (stripZhou s) = [u, v] ∧ pyInt u = some a ∧ pyInt v = some b)

/-- A merged course whose position contains an internal newline, used as the
concrete input for the location-field claims. -/
def c5_course : CourseInfo :=
  { name := "N", teacher := "T", weeks := [1], position := "楼A\n101",
    sections := [1, 2], day := 1 }

/-- A course whose period numbers are outside the fixed timetable
(`class_timetable` has keys 1..10 only), used as the concrete failing input
for the period-lookup claims. -/
def bad_course : JsonCourse :=
  { name := "C", teacher := "T", time := "", sections := "", weeks := "",
    weeks_array := [1], position := "P", day := 1, section_array := [11, 12] }

/-! ### Helper lemmas: sorting, minimum and maximum of the week list -/

theorem sortW_sorted (ws : List Int) : List.Sorted (fun a b => a ≤ b) (sortW ws) :=
  List.sorted_insertionSort _ ws

theorem sortW_perm (ws : List Int) : List.Perm (sortW ws) ws :=
  List.perm_insertionSort _ ws

theorem sortW_ne_nil (ws : List Int) (hne : ws ≠ []) : sortW ws ≠ [] := by
  intro h
  exact hne (List.Perm.eq_nil ((sortW_perm ws).symm.trans (h ▸ List.Perm.refl _)))

theorem startWeek_mem (ws : List Int) (hne : ws ≠ []) : startWeek ws ∈ ws := by
  have hs := sortW_ne_nil ws hne
  cases h : sortW ws with
  | nil => exact absurd h hs
  | cons x t =>
    have hx : startWeek ws = x := by simp [startWeek, h]
    have hmem : x ∈ sortW ws := by simp [h]
    exact hx ▸ (sortW_perm ws).mem_iff.mp hmem

theorem startWeek_le (ws : List Int) (hne : ws ≠ []) (w : Int) (hw : w ∈ ws) :
    startWeek ws ≤ w := by
  have hs := sortW_sorted ws
  have hw2 : w ∈ sortW ws := (sortW_perm ws).mem_iff.mpr hw
  cases h : sortW ws with
  | nil => simp [h] at hw2
  | cons x t =>
    rw [h] at hw2 hs
    have hx : startWeek ws = x := by simp [startWeek, h]
    rw [List.sorted_cons] at hs
    rcases List.mem_cons.mp hw2 with h2 | h2
    · exact hx ▸ le_of_eq h2.symm
    · exact hx ▸ hs.1 w h2

theorem getLastD_eq_or_mem : ∀ (t : List Int) (x : Int), t.getLastD x = x ∨ t.getLastD x ∈ t := by
  intro t
  induction t with
  | nil => intro x; left; rfl
  | cons y t ih =>
    intro x
    rw [List.getLastD_cons]
    rcases ih y with h | h
    · right; rw [h]; exact List.mem_cons_self _ _
    · right; exact List.mem_cons_of_mem _ h

theorem sorted_le_getLastD : ∀ (l : List Int), List.Sorted (fun a b => a ≤ b) l →
    ∀ w ∈ l, ∀ d : Int, w ≤ l.getLastD d := by
  intro l
  induction l with
  | nil => intro _ w hw; simp at hw
  | cons x t ih =>
    intro hs w hw d
    rw [List.sorted_cons] at hs
    rw [List.getLastD_cons]
    rcases List.mem_cons.mp hw with h2 | h2
    · subst h2
      rcases getLastD_eq_or_mem t w with h | h
      · rw [h]
      · exact hs.1 _ h
    · exact ih hs.2 w h2 x

theorem le_endWeek (ws : List Int) (w : Int) (hw : w ∈ ws) :
    w ≤ endWeek ws := by
  have hw2 : w ∈ sortW ws := (sortW_perm ws).mem_iff.mpr hw
  exact sorted_le_getLastD (sortW ws) (sortW_sorted ws) w hw2 0

theorem endWeek_mem (ws : List Int) (hne : ws ≠ []) : endWeek ws ∈ ws := by
  have hs := sortW_ne_nil ws hne
  cases h : sortW ws with
  | nil => exact absurd h hs
  | cons x t =>
    have hx : endWeek ws = (x :: t).getLastD 0 := by simp [endWeek, h]
    rw [List.getLastD_cons] at hx
    apply (sortW_perm ws).mem_iff.mp
    rw [h]
    rcases getLastD_eq_or_mem t x with h2 | h2
    · rw [hx, h2]; exact List.mem_cons_self _ _
    · rw [hx]; exact List.mem_cons_of_mem _ h2

/-! ### Helper lemmas: the recurrence classification -/

theorem weekStatus_cases (ws : List Int) :
    (weekStatus ws = 1 ∧ ∀ w ∈ ws, w % 2 = 1) ∨
    (weekStatus ws = 2 ∧ (¬ ∀ w ∈ ws, w % 2 = 1) ∧ ∀ w ∈ ws, w % 2 = 0) ∨
    (weekStatus ws = 0 ∧ (¬ ∀ w ∈ ws, w % 2 = 1) ∧ ¬ ∀ w ∈ ws, w % 2 = 0) := by
  unfold weekStatus
  by_cases h1 : ws.all (fun w => decide (w % 2 = 1)) = true
  · left
    refine ⟨by rw [if_pos h1], ?_⟩
    intro w hw
    exact of_decide_eq_true (List.all_eq_true.mp h1 w hw)
  · have h1p : ¬ ∀ w ∈ ws, w % 2 = 1 := by
      intro hall
      exact h1 (List.all_eq_true.mpr (fun w hw => decide_eq_true (hall w hw)))
    by_cases h2 : ws.all (fun w => decide (w % 2 = 0)) = true
    · right; left
      refine ⟨by rw [if_neg h1, if_pos h2], h1p, ?_⟩
      intro w hw
      exact of_decide_eq_true (List.all_eq_true.mp h2 w hw)
    · have h2p : ¬ ∀ w ∈ ws, w % 2 = 0 := by
        intro hall
        exact h2 (List.all_eq_true.mpr (fun w hw => decide_eq_true (hall w hw)))
      right; right
      exact ⟨by rw [if_neg h1, if_neg h2], h1p, h2p⟩

theorem weekStatus_of_all_odd (ws : List Int) (h : ∀ w ∈ ws, w % 2 = 1) :
    weekStatus ws = 1 := by
  rcases weekStatus_cases ws with ⟨hv, _⟩ | ⟨_, hno, _⟩ | ⟨_, hno, _⟩
  · exact hv
  · exact absurd h hno
  · exact absurd h hno

theorem all_odd_of_weekStatus (ws : List Int) (h : weekStatus ws = 1) :
    ∀ w ∈ ws, w % 2 = 1 := by
  rcases weekStatus_cases ws with ⟨_, hall⟩ | ⟨hv, _, _⟩ | ⟨hv, _, _⟩
  · exact hall
  · rw [hv] at h; exact absurd h (by omega)
  · rw [hv] at h; exact absurd h (by omega)

theorem weekStatus_of_all_even (ws : List Int) (hne : ws ≠ [])
    (h : ∀ w ∈ ws, w % 2 = 0) : weekStatus ws = 2 := by
  rcases weekStatus_cases ws with ⟨_, hall⟩ | ⟨hv, _, _⟩ | ⟨_, _, hno⟩
  · exfalso
    obtain ⟨x, t, rfl⟩ : ∃ x t, ws = x :: t := by
      cases ws with
      | nil => exact absurd rfl hne
      | cons x t => exact ⟨x, t, rfl⟩
    have h1 := hall x (List.mem_cons_self _ _)
    have h2 := h x (List.mem_cons_self _ _)
    omega
  · exact hv
  · exact absurd h hno

theorem all_even_of_weekStatus (ws : List Int) (h : weekStatus ws = 2) :
    ∀ w ∈ ws, w % 2 = 0 := by
  rcases weekStatus_cases ws with ⟨hv, _⟩ | ⟨_, _, hall⟩ | ⟨hv, _, _⟩
  · rw [hv] at h; exact absurd h (by omega)
  · exact hall
  · rw [hv] at h; exact absurd h (by omega)

theorem weekStatus_of_mixed (ws : List Int) (h1 : ¬ ∀ w ∈ ws, w % 2 = 1)
    (h2 : ¬ ∀ w ∈ ws, w % 2 = 0) : weekStatus ws = 0 := by
  rcases weekStatus_cases ws with ⟨_, hall⟩ | ⟨_, _, hall⟩ | ⟨hv, _, _⟩
  · exact absurd hall h1
  · exact absurd hall h2
  · exact hv

theorem all_perm_eq (p : Int → Bool) (l l' : List Int) (h : List.Perm l l') :
    l.all p = l'.all p := by
  cases hb : l'.all p
  · rw [List.all_eq_false] at hb ⊢
    obtain ⟨x, hx, hpx⟩ := hb
    exact ⟨x, h.mem_iff.mpr hx, hpx⟩
  · rw [List.all_eq_true] at hb ⊢
    intro x hx
    exact hb x (h.mem_iff.mp hx)

theorem weekStatus_perm (l l' : List Int) (h : List.Perm l l') :
    weekStatus l = weekStatus l' := by
  unfold weekStatus
  rw [all_perm_eq _ _ _ h, all_perm_eq _ _ _ h]

theorem weekStatus_sortW (ws : List Int) : weekStatus (sortW ws) = weekStatus ws :=
  weekStatus_perm _ _ (sortW_perm ws)

theorem startWeek_odd (ws : List Int) (hne : ws ≠ []) (h : weekStatus ws = 1) :
    startWeek ws % 2 = 1 :=
  all_odd_of_weekStatus ws h _ (startWeek_mem ws hne)

theorem startWeek_even (ws : List Int) (hne : ws ≠ []) (h : weekStatus ws = 2) :
    startWeek ws % 2 = 0 :=
  all_even_of_weekStatus ws h _ (startWeek_mem ws hne)

/-! ### Helper lemmas: the first-occurrence computation -/

theorem first_time_obj_eq (anchor day : Int) (ws : List Int) :
    first_time_obj anchor day ws = anchor + delta_time (startWeek ws) day (weekStatus ws) := by
  simp [first_time_obj, startWeek, weekStatus_sortW]

theorem first_time_obj_unshifted (anchor day : Int) (ws : List Int) (hne : ws ≠ []) :
    first_time_obj anchor day ws = anchor + (7 * (startWeek ws - 1) + (day - 1)) := by
  rw [first_time_obj_eq]
  rcases weekStatus_cases ws with ⟨h, hall⟩ | ⟨h, _, hall⟩ | ⟨h, _, _⟩
  · have hodd : startWeek ws % 2 = 1 := hall _ (startWeek_mem ws hne)
    rw [h]
    simp only [delta_time]
    first
    | (split_ifs <;> omega)
    | omega
  · have heven : startWeek ws % 2 = 0 := hall _ (startWeek_mem ws hne)
    rw [h]
    simp only [delta_time]
    first
    | (split_ifs <;> omega)
    | omega
  · rw [h]
    simp only [delta_time]
    first
    | (split_ifs <;> omega)
    | omega

/-! ### Claims C1, C2, C10, C6: classification and first occurrence -/

/-- C1: for every non-empty week list, the classification of lines 314-323
yields 单周 (`1`, ODD_WEEKS) when every week is odd, 双周 (`2`, EVEN_WEEKS)
when every week is even, and 每周 (`0`, EVERY_WEEK) when the parities are
mixed. -/
theorem claim_C1 (ws : List Int) (hne : ws ≠ []) :
    ((∀ w ∈ ws, w % 2 = 1) → weekStatus ws = 1) ∧
    ((∀ w ∈ ws, w % 2 = 0) → weekStatus ws = 2) ∧
    ((¬ ∀ w ∈ ws, w % 2 = 1) → (¬ ∀ w ∈ ws, w % 2 = 0) → weekStatus ws = 0) :=
  ⟨weekStatus_of_all_odd ws, weekStatus_of_all_even ws hne, weekStatus_of_mixed ws⟩

/-- Witness for C1 at the concrete week lists `[1, 3]`, `[2, 4]` and
`[1, 2]`. -/
theorem claim_C1_witness :
    (([1, 3] : List Int) ≠ [] ∧ weekStatus [1, 3] = 1) ∧
    (([2, 4] : List Int) ≠ [] ∧ weekStatus [2, 4] = 2) ∧
    (([1, 2] : List Int) ≠ [] ∧ weekStatus [1, 2] = 0) :=
  ⟨⟨by decide, (claim_C1 [1, 3] (by decide)).1 (by decide)⟩,
   ⟨by decide, (claim_C1 [2, 4] (by decide)).2.1 (by decide)⟩,
   ⟨by decide, (claim_C1 [1, 2] (by decide)).2.2 (by decide) (by decide)⟩⟩

/-- C2: for a non-empty week list with minimum `m`, the first occurrence
computed at lines 325-335 is the anchor plus `7*(m-1) + (day-1)` days, plus
7 more days exactly when the pattern is ODD_WEEKS (`1`) with even start
week or EVEN_WEEKS (`2`) with odd start week. -/
theorem claim_C2 (anchor day m : Int) (ws : List Int) (hne : ws ≠ [])
    (hmem : m ∈ ws) (hmin : ∀ w ∈ ws, m ≤ w) :
    first_time_obj anchor day ws =
      anchor + (7 * (m - 1) + (day - 1)) +
        (if weekStatus ws = 1 ∧ m % 2 = 0 then 7
         else if weekStatus ws = 2 ∧ ¬ m % 2 = 0 then 7 else 0) := by
  have hsw : startWeek ws = m :=
    le_antisymm (startWeek_le ws hne m hmem) (hmin _ (startWeek_mem ws hne))
  rw [first_time_obj_eq, hsw]
  simp only [delta_time]
  split_ifs <;> omega

/-- Witness for C2 at anchor 0, weekday 3, weeks `[2, 4, 6]`
(minimum 2): the first occurrence lands 9 days after the anchor. -/
theorem claim_C2_witness :
    (([2, 4, 6] : List Int) ≠ [] ∧ (2 : Int) ∈ ([2, 4, 6] : List Int) ∧
      (∀ w ∈ ([2, 4, 6] : List Int), (2 : Int) ≤ w)) ∧
    first_time_obj 0 3 [2, 4, 6] =
      0 + (7 * (2 - 1) + (3 - 1)) +
        (if weekStatus [2, 4, 6] = 1 ∧ (2 : Int) % 2 = 0 then 7
         else if weekStatus [2, 4, 6] = 2 ∧ ¬ (2 : Int) % 2 = 0 then 7 else 0) :=
  ⟨⟨by decide, by decide, by decide⟩,
   claim_C2 0 3 2 [2, 4, 6] (by decide) (by decide) (by decide)⟩

/-- C10: the classification and the start week come from the same week
list, so their parities always agree — ODD_WEEKS (`1`) forces an odd start
week and EVEN_WEEKS (`2`) an even one — and hence the `+7` parity-shift
branches of lines 328-333 never fire: the first occurrence is always the
unshifted `anchor + 7*(startWeek - 1) + (day - 1)`. -/
theorem claim_C10 (anchor day : Int) (ws : List Int) (hne : ws ≠ []) :
    (weekStatus ws = 1 → startWeek ws % 2 = 1) ∧
    (weekStatus ws = 2 → startWeek ws % 2 = 0) ∧
    first_time_obj anchor day ws = anchor + (7 * (startWeek ws - 1) + (day - 1)) :=
  ⟨startWeek_odd ws hne, startWeek_even ws hne,
   first_time_obj_unshifted anchor day ws hne⟩

/-- Witness for C10 at anchor 0, weekday 3, weeks `[2, 4]`. -/
theorem claim_C10_witness :
    (([2, 4] : List Int) ≠ []) ∧
    first_time_obj 0 3 [2, 4] = 0 + (7 * (startWeek [2, 4] - 1) + (3 - 1)) :=
  ⟨by decide, (claim_C10 0 3 [2, 4] (by decide)).2.2⟩

/-- C6 fails as stated: for weeks `[2, 4, 6]`, weekday 3 and anchor
2023-09-04, the code computes anchor + 9 days = 2023-09-13, not the claimed
2023-09-20. -/
theorem claim_C6_counterexample :
    first_time_obj (gdate 2023 9 4) 3 [2, 4, 6] ≠ gdate 2023 9 20 := by
  decide

/-- C6 (amended): for weeks `[2, 4, 6]`, weekday 3 and anchor 2023-09-04,
the classification is EVEN_WEEKS (`2`) with start week 2, no parity shift
is applied (the offset is the base `7*(2-1) + (3-1) = 9`), and the first
occurrence is 2023-09-13. -/
theorem claim_C6 :
    weekStatus [2, 4, 6] = 2 ∧ startWeek [2, 4, 6] = 2 ∧
    delta_time (startWeek [2, 4, 6]) 3 (weekStatus [2, 4, 6]) = 7 * (2 - 1) + (3 - 1) ∧
    first_time_obj (gdate 2023 9 4) 3 [2, 4, 6] = gdate 2023 9 13 := by
  refine ⟨by decide, by decide, by decide, ?_⟩
  decide

/-! ### Helper lemmas: the holiday-exclusion loop -/

theorem collect_exdates_eq (hol : Int → Bool) (sec0 : Int) (t : String × String)
    (htt : class_timetable sec0 = some t) (status : Nat) (first startW : Int) :
    ∀ l : List Int, collect_exdates hol sec0 status first startW l =
      Except.ok (l.filterMap (fun w =>
        if status = 1 ∧ w % 2 = 0 then none
        else if status = 2 ∧ w % 2 = 1 then none
        else if hol (first + 7 * (w - startW)) then
          some (first + 7 * (w - startW), t.1)
        else none)) := by
  intro l
  induction l with
  | nil => rfl
  | cons w rest ih =>
    simp only [collect_exdates, List.filterMap_cons]
    split_ifs with h1 h2 h3
    · exact ih
    · exact ih
    · rw [htt, ih]
      rfl
    · exact ih

theorem mem_intRange (a b w : Int) : w ∈ intRange a b ↔ a ≤ w ∧ w < b := by
  simp only [intRange, List.mem_map, List.mem_range]
  constructor
  · rintro ⟨i, hi, rfl⟩
    omega
  · rintro ⟨hab, hwb⟩
    exact ⟨(w - a).toNat, by omega, by omega⟩

theorem pairwise_filterMap {α β : Type} {S : α → α → Prop} {R : β → β → Prop}
    (f : α → Option β) (l : List α) (h : List.Pairwise S l)
    (hf : ∀ a b, S a b → ∀ x ∈ f a, ∀ y ∈ f b, R x y) :
    List.Pairwise R (l.filterMap f) := by
  induction l with
  | nil => simp
  | cons a l ih =>
    rw [List.pairwise_cons] at h
    rw [List.filterMap_cons]
    cases hfa : f a with
    | none => exact ih h.2
    | some x =>
      rw [List.pairwise_cons]
      constructor
      · intro y hy
        obtain ⟨b, hb, hfb⟩ := List.mem_filterMap.mp hy
        exact hf a b (h.1 b hb) x (by simp [hfa]) y (by simp [hfb])
      · exact ih h.2

theorem intRange_pairwise (a b : Int) : List.Pairwise (fun x y => x < y) (intRange a b) := by
  unfold intRange
  refine List.Pairwise.map _ ?_ (List.pairwise_lt_range _)
  intro i j hij
  omega

/-- With a valid period lookup, the exclusion computation of lines 337-354
is the filter of the candidate week range keeping, for the weeks whose
parity fits the pattern, the holiday occurrences at the week-absolute date
`anchor + 7*(w-1) + (day-1)`. -/
theorem exclude_dates_char (hol : Int → Bool) (anchor day sec0 : Int)
    (t : String × String) (ws : List Int) (hne : ws ≠ [])
    (htt : class_timetable sec0 = some t) :
    exclude_dates hol sec0 (weekStatus ws) (first_time_obj anchor day ws)
        (startWeek ws) (endWeek ws) =
      Except.ok ((intRange (startWeek ws) (endWeek ws + 1)).filterMap (fun w =>
        if weekStatus ws = 1 ∧ w % 2 = 0 then none
        else if weekStatus ws = 2 ∧ w % 2 = 1 then none
        else if hol (anchor + (7 * (w - 1) + (day - 1))) then
          some (anchor + (7 * (w - 1) + (day - 1)), t.1)
        else none)) := by
  rw [exclude_dates, collect_exdates_eq hol sec0 t htt]
  congr 1
  have hfirst := first_time_obj_unshifted anchor day ws hne
  have hfun : ∀ w : Int,
      first_time_obj anchor day ws + 7 * (w - startWeek ws) =
        anchor + (7 * (w - 1) + (day - 1)) := by
    intro w
    rw [hfirst]
    ring
  apply List.filterMap_congr
  intro w _
  rw [hfun w]

/-! ### Claims C3 and C9: exclusion dates -/

/-- C3: with a valid period lookup, the exclusion set enumerates the weeks
from `startWeek` to `endWeek` inclusive, skips weeks whose parity disagrees
with the pattern, keeps exactly the candidate dates on which the holiday
oracle answers true as (date, period-start time) timestamps, and is listed
in ascending date order. -/
theorem claim_C3 (hol : Int → Bool) (anchor day sec0 : Int) (st et : String)
    (ws : List Int) (hne : ws ≠ [])
    (htt : class_timetable sec0 = some (st, et)) :
    ∃ l, exclude_dates hol sec0 (weekStatus ws) (first_time_obj anchor day ws)
          (startWeek ws) (endWeek ws) = Except.ok l ∧
      (∀ p : Int × String, p ∈ l ↔ ∃ w : Int,
          startWeek ws ≤ w ∧ w ≤ endWeek ws ∧
          ¬ (weekStatus ws = 1 ∧ w % 2 = 0) ∧
          ¬ (weekStatus ws = 2 ∧ w % 2 = 1) ∧
          hol (anchor + (7 * (w - 1) + (day - 1))) = true ∧
          p = (anchor + (7 * (w - 1) + (day - 1)), st)) ∧
      List.Pairwise (fun p q : Int × String => p.1 < q.1) l := by
  refine ⟨_, exclude_dates_char hol anchor day sec0 (st, et) ws hne htt, ?_, ?_⟩
  · intro p
    rw [List.mem_filterMap]
    constructor
    · rintro ⟨w, hw, hp⟩
      rw [mem_intRange] at hw
      split_ifs at hp with h1 h2 h3
      all_goals try exact Option.noConfusion hp
      exact ⟨w, hw.1, by omega, h1, h2, h3, (Option.some_inj.mp hp).symm⟩
    · rintro ⟨w, hw1, hw2, h1, h2, h3, rfl⟩
      refine ⟨w, (mem_intRange _ _ _).mpr ⟨hw1, by omega⟩, ?_⟩
      rw [if_neg h1, if_neg h2, if_pos h3]
  · apply pairwise_filterMap _ _ (intRange_pairwise _ _)
    intro a b hab x hx y hy
    split_ifs at hx with h1 h2 h3 <;> simp at hx
    split_ifs at hy with h4 h5 h6 <;> simp at hy
    rw [← hx, ← hy]
    show anchor + (7 * (a - 1) + (day - 1)) < anchor + (7 * (b - 1) + (day - 1))
    omega

/-- Witness for C3: weeks `[1, 3]`, weekday 1, anchor 0, section 1, with a
holiday oracle marking day 14 (the week-3 occurrence). -/
theorem claim_C3_witness :
    ∃ l, exclude_dates (fun d => decide (d = 14)) 1 (weekStatus [1, 3])
          (first_time_obj 0 1 [1, 3]) (startWeek [1, 3]) (endWeek [1, 3]) = Except.ok l ∧
      (∀ p : Int × String, p ∈ l ↔ ∃ w : Int,
          startWeek [1, 3] ≤ w ∧ w ≤ endWeek [1, 3] ∧
          ¬ (weekStatus [1, 3] = 1 ∧ w % 2 = 0) ∧
          ¬ (weekStatus [1, 3] = 2 ∧ w % 2 = 1) ∧
          (fun d => decide (d = 14)) (0 + (7 * (w - 1) + ((1 : Int) - 1))) = true ∧
          p = (0 + (7 * (w - 1) + ((1 : Int) - 1)), "080000")) ∧
      List.Pairwise (fun p q : Int × String => p.1 < q.1) l :=
  claim_C3 (fun d => decide (d = 14)) 0 1 1 "080000" "084000" [1, 3]
    (by decide) (by decide)

/-- C9: enlarging the candidate week interval while keeping the same
pattern (smaller minimum, larger maximum) never loses an exclusion
timestamp. -/
theorem claim_C9 (hol : Int → Bool) (anchor day sec0 : Int) (st et : String)
    (ws ws2 : List Int) (h1 : ws ≠ []) (h2 : ws2 ≠ [])
    (hpat : weekStatus ws2 = weekStatus ws)
    (hs : startWeek ws2 ≤ startWeek ws) (he : endWeek ws ≤ endWeek ws2)
    (htt : class_timetable sec0 = some (st, et))
    (l l2 : List (Int × String))
    (hl : exclude_dates hol sec0 (weekStatus ws) (first_time_obj anchor day ws)
            (startWeek ws) (endWeek ws) = Except.ok l)
    (hl2 : exclude_dates hol sec0 (weekStatus ws2) (first_time_obj anchor day ws2)
            (startWeek ws2) (endWeek ws2) = Except.ok l2) :
    ∀ p ∈ l, p ∈ l2 := by
  have hc := exclude_dates_char hol anchor day sec0 (st, et) ws h1 htt
  have hc2 := exclude_dates_char hol anchor day sec0 (st, et) ws2 h2 htt
  rw [hl] at hc
  rw [hl2] at hc2
  injection hc with hc
  injection hc2 with hc2
  intro p hp
  rw [hc] at hp
  rw [hc2]
  rw [List.mem_filterMap] at hp ⊢
  obtain ⟨w, hw, hpw⟩ := hp
  rw [mem_intRange] at hw
  refine ⟨w, (mem_intRange _ _ _).mpr ⟨by omega, by omega⟩, ?_⟩
  rw [hpat]
  exact hpw

/-- Witness for C9: weeks `[3]` against the enlarged `[3, 5]`, weekday 1,
anchor 0, holidays on days 14 and 28. -/
theorem claim_C9_witness :
    (14, "080000") ∈ ([((14 : Int), "080000"), ((28 : Int), "080000")] : List (Int × String)) :=
  claim_C9 (fun d => decide (d = 14 ∨ d = 28)) 0 1 1 "080000" "084000"
    [3] [3, 5] (by decide) (by decide) (by decide) (by decide) (by decide)
    (by decide) [((14 : Int), "080000")] [((14 : Int), "080000"), ((28 : Int), "080000")]
    (by rfl) (by rfl)
    (14, "080000") (by decide)

/-! ### Helper lemmas: week-label parsing -/

theorem digit_ne_zhou (c : Char) (h : c.isDigit = true) : ¬ c = '周' := by
  intro hc
  rw [hc] at h
  exact absurd h (by decide)

theorem digit_ne_dash (c : Char) (h : c.isDigit = true) : ¬ c = '-' := by
  intro hc
  rw [hc] at h
  exact absurd h (by decide)

theorem digit_ne_plus (c : Char) (h : c.isDigit = true) : ¬ c = '+' := by
  intro hc
  rw [hc] at h
  exact absurd h (by decide)

theorem stripZhou_digits (xs : List Char) (h : ∀ c ∈ xs, c.isDigit = true) :
    stripZhou xs = xs := by
  unfold stripZhou
  apply List.filter_eq_self.mpr
  intro a ha
  exact decide_eq_true (digit_ne_zhou a (h a ha))

theorem stripZhou_append (xs ys : List Char) :
    stripZhou (xs ++ ys) = stripZhou xs ++ stripZhou ys := by
  simp [stripZhou]

theorem stripZhou_dash_cons (M : List Char) :
    stripZhou ('-' :: M) = '-' :: stripZhou M := by
  simp [stripZhou]

theorem stripZhou_zhou : stripZhou ['周'] = [] := by
  decide

theorem pySplit_no_sep (sep : Char) (xs : List Char) (h : ∀ c ∈ xs, ¬ c = sep) :
    pySplit sep xs = [xs] := by
  induction xs with
  | nil => rfl
  | cons c cs ih =>
    simp only [pySplit]
    rw [if_neg (h c (List.mem_cons_self _ _)),
        ih (fun d hd => h d (List.mem_cons_of_mem _ hd))]

theorem pySplit_append_sep (sep : Char) (xs rest : List Char)
    (h : ∀ c ∈ xs, ¬ c = sep) :
    pySplit sep (xs ++ sep :: rest) = xs :: pySplit sep rest := by
  induction xs with
  | nil =>
    simp [pySplit]
  | cons c cs ih =>
    simp only [List.cons_append, pySplit, List.append_eq]
    rw [if_neg (h c (List.mem_cons_self _ _)),
        ih (fun d hd => h d (List.mem_cons_of_mem _ hd))]

theorem pyInt_digits (xs : List Char) (hne : xs ≠ []) (h : ∀ c ∈ xs, c.isDigit = true) :
    pyInt xs = some ((digitsVal xs : Int)) := by
  match xs, hne with
  | c :: rest, _ =>
    have hc := h c (List.mem_cons_self _ _)
    simp only [pyInt]
    rw [if_neg (digit_ne_dash c hc), if_neg (digit_ne_plus c hc)]
    unfold pyIntCore
    rw [if_pos ⟨List.cons_ne_nil _ _, List.all_eq_true.mpr h⟩]

theorem parse_weeks_range (xs ys : List Char) (hx : xs ≠ [])
    (hxd : ∀ c ∈ xs, c.isDigit = true) (hy : ys ≠ [])
    (hyd : ∀ c ∈ ys, c.isDigit = true) :
    parse_weeks_string (xs ++ '-' :: (ys ++ ['周'])) =
      intRange (digitsVal xs) (digitsVal ys + 1) := by
  have hsx : stripZhou (xs ++ '-' :: (ys ++ ['周'])) = xs ++ '-' :: ys := by
    rw [stripZhou_append, stripZhou_digits xs hxd, stripZhou_dash_cons,
        stripZhou_append, stripZhou_digits ys hyd, stripZhou_zhou,
        List.append_nil]
  simp only [parse_weeks_string]
  rw [hsx,
      pySplit_append_sep '-' xs ys (fun c hc => digit_ne_dash c (hxd c hc)),
      pySplit_no_sep '-' ys (fun c hc => digit_ne_dash c (hyd c hc))]
  show parseTwo xs ys (xs ++ '-' :: ys) = intRange (digitsVal xs) ((digitsVal ys : Int) + 1)
  unfold parseTwo
  rw [pyInt_digits xs hx hxd, pyInt_digits ys hy hyd]

theorem parse_weeks_single (xs : List Char) (hx : xs ≠ [])
    (hxd : ∀ c ∈ xs, c.isDigit = true) :
    parse_weeks_string (xs ++ ['周']) = [(digitsVal xs : Int)] := by
  have hsx : stripZhou (xs ++ ['周']) = xs := by
    rw [stripZhou_append, stripZhou_digits xs hxd, stripZhou_zhou, List.append_nil]
  simp only [parse_weeks_string]
  rw [hsx, pySplit_no_sep '-' xs (fun c hc => digit_ne_dash c (hxd c hc))]
  show weeksFallback xs = [(digitsVal xs : Int)]
  unfold weeksFallback
  rw [pyInt_digits xs hx hxd]

theorem parse_nonempty_parseable (s : List Char)
    (h : parse_weeks_string s ≠ []) : isParseableLabel s := by
  by_cases hf : ∃ n, pyInt (stripZhou s) = some n
  · exact Or.inl hf
  · right
    have hfb : weeksFallback (stripZhou s) = [] := by
      unfold weeksFallback
      cases hpi : pyInt (stripZhou s) with
      | none => rfl
      | some n => exact absurd ⟨n, hpi⟩ hf
    simp only [parse_weeks_string] at h
    cases hsp : pySplit '-' (stripZhou s) with
    | nil => rw [hsp] at h; exact absurd hfb h
    | cons u t =>
      cases t with
      | nil => rw [hsp] at h; exact absurd hfb h
      | cons v t2 =>
        cases t2 with
        | cons w t3 => rw [hsp] at h; exact absurd hfb h
        | nil =>
          rw [hsp] at h
          have h2 : parseTwo u v (stripZhou s) ≠ [] := h
          cases hu : pyInt u with
          | none =>
            unfold parseTwo at h2
            rw [hu] at h2
            exact absurd hfb h2
          | some a =>
            cases hv : pyInt v with
            | none =>
              unfold parseTwo at h2
              rw [hu, hv] at h2
              exact absurd hfb h2
            | some b => exact ⟨u, v, a, b, rfl, hu, hv⟩

theorem emit_events_skip (utcNow u1 u2 u3 trig : String) (hol : Int → Bool)
    (it : Int) (c : JsonCourse) (cs : List JsonCourse) (h : c.weeks_array = []) :
    emit_events utcNow u1 u2 u3 trig hol it (c :: cs) =
      emit_events utcNow u1 u2 u3 trig hol it cs := by
  conv_lhs => rw [emit_events]
  rw [if_pos h]

/-! ### Claim C8: week-label parsing and empty-week exclusion -/

/-- C8: a digit label `a-b周` parses to the inclusive range `[a..b]`
(`range(a, b+1)`), a bare digit label `a周` to the singleton `[a]`, a label
on which both `int()` attempts fail parses to the empty week list, and a
course with an empty week list is skipped by the generation loop
(lines 306-307): it contributes no event block. -/
theorem claim_C8 (xs ys s : List Char)
    (hx : xs ≠ []) (hxd : ∀ c ∈ xs, c.isDigit = true)
    (hy : ys ≠ []) (hyd : ∀ c ∈ ys, c.isDigit = true) :
    parse_weeks_string (xs ++ '-' :: (ys ++ ['周'])) =
      intRange (digitsVal xs) (digitsVal ys + 1) ∧
    parse_weeks_string (xs ++ ['周']) = [(digitsVal xs : Int)] ∧
    (parse_weeks_string s ≠ [] → isParseableLabel s) ∧
    (∀ (utcNow u1 u2 u3 trig : String) (hol : Int → Bool) (it : Int)
        (c : JsonCourse) (cs : List JsonCourse), c.weeks_array = [] →
      emit_events utcNow u1 u2 u3 trig hol it (c :: cs) =
        emit_events utcNow u1 u2 u3 trig hol it cs) :=
  ⟨parse_weeks_range xs ys hx hxd hy hyd, parse_weeks_single xs hx hxd,
   parse_nonempty_parseable s,
   fun utcNow u1 u2 u3 trig hol it c cs h =>
     emit_events_skip utcNow u1 u2 u3 trig hol it c cs h⟩

/-- Witness for C8: the label `1-3周` parses to `[1, 2, 3]` and `1周` to
`[1]`. -/
theorem claim_C8_witness :
    (['1'] : List Char) ≠ [] ∧ (['3'] : List Char) ≠ [] ∧
    parse_weeks_string ['1', '-', '3', '周'] = intRange 1 4 ∧
    parse_weeks_string ['1', '周'] = [(1 : Int)] := by
  refine ⟨by decide, by decide, ?_, ?_⟩
  · exact (claim_C8 ['1'] ['3'] [] (by decide) (by decide) (by decide) (by decide)).1
  · exact (claim_C8 ['1'] ['3'] [] (by decide) (by decide) (by decide) (by decide)).2.1

/-! ### Claims C4 and C5: calendar emission -/

/-- C4: evaluation of the generator at a course whose period numbers 11/12
are outside `class_timetable`.  The run does abort at that course, but the
file already holds the calendar header (written at line 298 before the
course loop) and the footer `END:VCALENDAR` of line 411 is never written:
a non-empty, truncated, footer-less document is left on disk, contradicting
the claim that no such document is emitted. -/
theorem claim_C4 :
    generate_ics_lines "TS" "U1" "U2" "U3" "" (fun _ => false) 0 [bad_course] =
      (ical_header_lines, false) ∧
    ical_header_lines ≠ [] ∧
    "END:VCALENDAR" ∉ ical_header_lines := by
  refine ⟨?_, by decide, by decide⟩
  rfl

/-- C5 fails as stated: for a merged course whose position is
`"楼A\n101"`, the event block emitted for its structured-export record
carries `LOCATION:楼A-101` (the dash-rewritten form) and not the
newline-joined original, because `generate_ics_from_json` reads the JSON
written by `save_courses_to_json`, which already replaced the newlines
(line 51). -/
theorem claim_C5_counterexample :
    ("LOCATION:" ++ replace_nl_dash c5_course.position) ∈
      okLines (ical_event_lines "TS" "U1" "U2" "U3" "" (fun _ => false) 0
        (exportRecord c5_course)) ∧
    ("LOCATION:" ++ c5_course.position) ∉
      okLines (ical_event_lines "TS" "U1" "U2" "U3" "" (fun _ => false) 0
        (exportRecord c5_course)) ∧
    replace_nl_dash c5_course.position ≠ c5_course.position := by
  refine ⟨by decide, by decide, by decide⟩

/-- C5 (amended): the structured-export record rewrites the internal
newlines of a merged position to dashes, and the LOCATION field of the
calendar event block emitted for that record carries the same
dash-rewritten single line (the newline-joined original is not preserved,
since calendar generation consumes the structured export). -/
theorem claim_C5 (utcNow u1 u2 u3 trig : String) (hol : Int → Bool)
    (it : Int) (c : CourseInfo) (ls : List String)
    (h : ical_event_lines utcNow u1 u2 u3 trig hol it (exportRecord c) = Except.ok ls) :
    (exportRecord c).position = replace_nl_dash c.position ∧
    ("LOCATION:" ++ replace_nl_dash c.position) ∈ ls := by
  refine ⟨rfl, ?_⟩
  simp only [ical_event_lines] at h
  split at h
  · exact absurd h (by simp)
  · split at h
    · rw [Except.ok.injEq] at h
      subst h
      have hpos : (exportRecord c).position = replace_nl_dash c.position := rfl
      rw [← hpos]
      simp [List.mem_append]
    · exact absurd h (by simp)

/-- Witness for C5 at the concrete merged course `c5_course`. -/
theorem claim_C5_witness :
    (ical_event_lines "TS" "U1" "U2" "U3" "" (fun _ => false) 0 (exportRecord c5_course) =
      Except.ok (okLines (ical_event_lines "TS" "U1" "U2" "U3" "" (fun _ => false) 0
        (exportRecord c5_course)))) ∧
    ("LOCATION:" ++ replace_nl_dash c5_course.position) ∈
      okLines (ical_event_lines "TS" "U1" "U2" "U3" "" (fun _ => false) 0
        (exportRecord c5_course)) :=
  ⟨by rfl,
   (claim_C5 "TS" "U1" "U2" "U3" "" (fun _ => false) 0 c5_course _ (by rfl)).2⟩

/-! ### Helper lemmas: session merging -/

theorem keyOf_eq_iff (d c : CourseInfo) :
    keyOf d = keyOf c ↔ (d.day = c.day ∧ d.weeks = c.weeks ∧ d.sections = c.sections) := by
  unfold keyOf
  rw [Prod.mk.injEq, Prod.mk.injEq]

theorem string_append_assoc (a b c : String) : a ++ b ++ c = a ++ (b ++ c) := by
  apply String.ext
  simp [String.data_append, List.append_assoc]

theorem joinSep_merge (p q : String) (L : List String) :
    joinSep ((p ++ "  " ++ q) :: L) = joinSep (p :: q :: L) := by
  cases L with
  | nil => rfl
  | cons d M =>
    show (p ++ "  " ++ q) ++ "  " ++ joinSep (d :: M) = p ++ "  " ++ (q ++ "  " ++ joinSep (d :: M))
    simp [string_append_assoc]

theorem mergeInto_cons (d : CourseInfo) (ds : List CourseInfo) (c : CourseInfo) :
    mergeInto (d :: ds) c =
      if keyOf d = keyOf c then
        { d with position := d.position ++ "  " ++ c.position } :: ds
      else d :: mergeInto ds c := by
  rfl

theorem spec_session_merge_nil : spec_session_merge [] = [] := by
  simp [spec_session_merge]

theorem spec_session_merge_cons (c : CourseInfo) (cs : List CourseInfo) :
    spec_session_merge (c :: cs) =
      { c with position :=
          joinSep (c.position :: (cs.filter (fun r => decide (keyOf r = keyOf c))).map (fun r => r.position)) }
        :: spec_session_merge (cs.filter (fun r => decide (¬ keyOf r = keyOf c))) := by
  rw [spec_session_merge]

theorem mergeInto_key_mem (acc : List CourseInfo) (c a : CourseInfo)
    (h : a ∈ mergeInto acc c) : keyOf a = keyOf c ∨ ∃ b ∈ acc, keyOf b = keyOf a := by
  induction acc with
  | nil =>
    simp only [mergeInto, List.mem_singleton] at h
    exact Or.inl (h ▸ rfl)
  | cons d ds ih =>
    simp only [mergeInto] at h
    split at h
    · rcases List.mem_cons.mp h with h2 | h2
      · exact Or.inr ⟨d, List.mem_cons_self _ _, by subst h2; rfl⟩
      · exact Or.inr ⟨a, List.mem_cons_of_mem _ h2, rfl⟩
    · rcases List.mem_cons.mp h with h2 | h2
      · exact Or.inr ⟨d, List.mem_cons_self _ _, by subst h2; rfl⟩
      · rcases ih h2 with h3 | ⟨b, hb, hb2⟩
        · exact Or.inl h3
        · exact Or.inr ⟨b, List.mem_cons_of_mem _ hb, hb2⟩

theorem foldl_mergeInto_cons (cs : List CourseInfo) :
    ∀ (e : CourseInfo) (p : String) (acc : List CourseInfo),
    (∀ a ∈ acc, ¬ keyOf a = keyOf e) →
    List.foldl mergeInto ({ e with position := p } :: acc) cs =
      { e with position :=
          joinSep (p :: (cs.filter (fun r => decide (keyOf r = keyOf e))).map (fun r => r.position)) }
        :: List.foldl mergeInto acc (cs.filter (fun r => decide (¬ keyOf r = keyOf e))) := by
  induction cs with
  | nil =>
    intro e p acc hacc
    rfl
  | cons c cs ih =>
    intro e p acc hacc
    by_cases hk : keyOf c = keyOf e
    · have hstep : mergeInto ({ e with position := p } :: acc) c =
          { e with position := p ++ "  " ++ c.position } :: acc := by
        rw [mergeInto_cons]
        rw [if_pos (show keyOf ({ e with position := p } : CourseInfo) = keyOf c from hk.symm)]
      rw [List.foldl_cons, hstep, ih e (p ++ "  " ++ c.position) acc hacc,
          List.filter_cons_of_pos (by simp [hk]),
          List.filter_cons_of_neg (by simp [hk]),
          List.map_cons, joinSep_merge]
    · have hstep : mergeInto ({ e with position := p } :: acc) c =
          { e with position := p } :: mergeInto acc c := by
        rw [mergeInto_cons]
        rw [if_neg (show ¬ keyOf ({ e with position := p } : CourseInfo) = keyOf c from
          fun h2 => hk (h2.symm))]
      have hacc2 : ∀ a ∈ mergeInto acc c, ¬ keyOf a = keyOf e := by
        intro a ha hae
        rcases mergeInto_key_mem acc c a ha with h2 | ⟨b, hb, hb2⟩
        · exact hk (h2 ▸ hae)
        · exact hacc b hb (hb2.trans hae)
      rw [List.foldl_cons, hstep, ih e p (mergeInto acc c) hacc2,
          List.filter_cons_of_neg (by simp [hk]),
          List.filter_cons_of_pos (by simp [hk]),
          List.foldl_cons]

theorem parse_course_info_eq_aux : ∀ (n : Nat) (raw : List CourseInfo), raw.length ≤ n →
    parse_course_info raw = spec_session_merge raw := by
  intro n
  induction n with
  | zero =>
    intro raw h
    have h0 : raw = [] := List.length_eq_zero.mp (Nat.le_zero.mp h)
    subst h0
    rw [spec_session_merge_nil]
    rfl
  | succ n ih =>
    intro raw h
    cases raw with
    | nil =>
      rw [spec_session_merge_nil]
      rfl
    | cons c cs =>
      show List.foldl mergeInto [] (c :: cs) = spec_session_merge (c :: cs)
      rw [List.foldl_cons]
      have h0 : mergeInto [] c = ({ c with position := c.position } : CourseInfo) :: [] := rfl
      rw [h0, foldl_mergeInto_cons cs c c.position [] (by intro a ha; simp at ha)]
      have hlen : (cs.filter (fun r => decide (¬ keyOf r = keyOf c))).length ≤ n := by
        have h1 : cs.length ≤ n := by
          simp only [List.length_cons] at h
          omega
        exact le_trans (List.length_filter_le _ _) h1
      rw [show List.foldl mergeInto [] (cs.filter (fun r => decide (¬ keyOf r = keyOf c))) =
            parse_course_info (cs.filter (fun r => decide (¬ keyOf r = keyOf c))) from rfl,
          ih _ hlen]
      rw [spec_session_merge_cons]

/-! ### Claim C7: session merging -/

/-- C7: processing the raw sessions in encounter order, the merge of
lines 171-186 equals the first-seen-order grouping `spec_session_merge`:
two raw sessions land in the same output entry exactly when their
`(day, weeks, sections)` keys are equal (see `keyOf_eq_iff`), each output
entry joins all positions of its group with the double-space separator in
encounter order, and the entries appear in first-seen order. -/
theorem claim_C7 (raw : List CourseInfo) :
    parse_course_info raw = spec_session_merge raw :=
  parse_course_info_eq_aux raw.length raw (le_refl _)
